import Mathlib

/-!
Verification of the request-parsing / route-matching / response-serialization
pipeline of a minimal HTTP server library (Rust sources `request.rs`,
`response.rs`, `lib.rs`).  Strings are embedded as `List Char`; Rust's
`str::split` family is embedded by the executable functions below, whose
semantics (empty pieces kept, `"".split(c) = [""]`) mirror the Rust standard
library.  `HashMap` values are embedded as association lists with
insert-overwrites semantics, which is observation-equivalent for the lookups
the claims mention.
-/

/-- One step of `splitBy`: prepend a character to the first piece. -/
def consHead (c : Char) : List (List Char) → List (List Char)
  | [] => [[c]]
  | h :: t => (c :: h) :: t

/-- Embedding of Rust `str::split` with a character predicate: split a string
into the pieces between separator characters, keeping empty pieces. -/
def splitBy (p : Char → Bool) : List Char → List (List Char)
  | [] => [[]]
  | c :: rest =>
    if p c then [] :: splitBy p rest
    else consHead c (splitBy p rest)

/-- Embedding of Rust `str::split(sep)` for a single separator character. -/
def splitOnChar (sep : Char) (s : List Char) : List (List Char) :=
  splitBy (fun c => c == sep) s

/-- Apply a function to the last element of a list (helper for reasoning
about `splitBy` on an appended suffix). -/
def onLast (f : List Char → List Char) : List (List Char) → List (List Char)
  | [] => []
  | [x] => [f x]
  | x :: y :: t => x :: onLast f (y :: t)

/-- Association-list embedding of `HashMap::insert`: overwrite the binding
if the key is present, otherwise add it. -/
def hmInsert {α β : Type} [DecidableEq α] (m : List (α × β)) (k : α) (v : β) :
    List (α × β) :=
  match m with
  | [] => [(k, v)]
  | (k', v') :: rest => if k' = k then (k, v) :: rest else (k', v') :: hmInsert rest k v

/-- Association-list embedding of `HashMap::get`. -/
def hmLookup {α β : Type} [DecidableEq α] (m : List (α × β)) (k : α) : Option β :=
  match m with
  | [] => none
  | (k', v) :: rest => if k' = k then some v else hmLookup rest k

/-- `Except.isOk` as a plain Bool-valued function. -/
def exceptIsOk {ε α : Type} : Except ε α → Bool
  | .ok _ => true
  | .error _ => false

/-- Embedding of the unit struct `RequestParseError` from `request.rs`. -/
structure RequestParseError where
deriving DecidableEq

/-- Embedding of `enum HttpMethod { GET, PUT, PATCH, DELETE }` from
`request.rs` (this snapshot has no POST/UPDATE variants). -/
inductive HttpMethod
  | GET
  | PUT
  | PATCH
  | DELETE
deriving DecidableEq

/-- Embedding of `impl TryFrom<&str> for HttpMethod` from `request.rs`:
an exact (case-sensitive) match against the four method words. -/
def HttpMethod.tryFrom (s : List Char) : Except RequestParseError HttpMethod :=
  if s = "GET".toList then .ok .GET
  else if s = "PUT".toList then .ok .PUT
  else if s = "PATCH".toList then .ok .PATCH
  else if s = "DELETE".toList then .ok .DELETE
  else .error ⟨⟩

/-- Embedding of `struct Request` from `request.rs`.  The `queries` HashMap is
embedded as an association list built by insert-with-overwrite, matching the
`collect::<HashMap<_,_>>()` in the parser. -/
structure Request where
  raw_content : List Char
  path : List Char
  method : HttpMethod
  queries : List (List Char × Option (List Char))
deriving DecidableEq

/-- One query fragment of `parse_request_from_http_request_body`: split the
fragment on `=`; the key is the first piece, the value the second if any. -/
def parseQueryFragment (frag : List Char) : List Char × Option (List Char) :=
  let parts := splitOnChar '=' frag
  (parts.headD [], (parts.drop 1).head?)

/-- The query-map construction inside `parse_request_from_http_request_body`:
split the path on `?` or `&`, skip the leading path piece, parse each
fragment, and collect into a HashMap (later inserts overwrite). -/
def parseQueries (path : List Char) : List (List Char × Option (List Char)) :=
  ((((splitBy (fun c => c == '?' || c == '&') path).drop 1).map
      parseQueryFragment).foldl (fun m kv => hmInsert m kv.1 kv.2) [])

/-- Embedding of `utils::parse_request_from_http_request_body` from
`request.rs`: split the content on single spaces, parse the first word as the
method, take the second word as the path, and build the query map. -/
def parse_request_from_http_request_body (content : List Char) :
    Except RequestParseError Request :=
  match HttpMethod.tryFrom ((splitOnChar ' ' content).headD []) with
  | .error e => .error e
  | .ok m =>
    match ((splitOnChar ' ' content).drop 1).head? with
    | none => .error ⟨⟩
    | some p =>
      .ok { raw_content := content, path := p, method := m, queries := parseQueries p }

/-- Rust `seg.starts_with('{')` on an embedded string. -/
def startsWithBrace : List Char → Bool
  | [] => false
  | c :: _ => c == '{'

/-- The request-side segment list of `request_matches_route`: split the
request path on `/`, drop empty segments, then truncate each remaining
segment at its first `?` (the `filter_map(|s| s.split('?').next())`). -/
def reqSegments (path : List Char) : List (List Char) :=
  (((splitOnChar '/' path).filter (fun s => !s.isEmpty)).map
    (fun s => s.takeWhile (fun c => c != '?')))

/-- The route-side segment list of `request_matches_route`: split the route
template on `/` and drop empty segments. -/
def routeSegments (route : List Char) : List (List Char) :=
  (splitOnChar '/' route).filter (fun s => !s.isEmpty)

/-- The lock-step loop of `request_matches_route`: a template segment that
starts with `{` consumes any request segment, any other template segment must
be equal to the request segment, and differing lengths never match. -/
def segsMatch : List (List Char) → List (List Char) → Bool
  | [], [] => true
  | _ :: _, [] => false
  | [], _ :: _ => false
  | re :: rs, ro :: ros =>
    if startsWithBrace ro then segsMatch rs ros
    else if re = ro then segsMatch rs ros
    else false

/-- Embedding of `utils::request_matches_route` from `request.rs`.  The Rust
function reads only `request.path_as_str()`, so it is embedded over the
request's stored path (query string included). -/
def request_matches_route (reqPath : List Char) (route : List Char) : Bool :=
  if reqPath = route then true
  else segsMatch (reqSegments reqPath) (routeSegments route)

/-- Embedding of `enum HttpStatusCode` from `response.rs`. -/
inductive HttpStatusCode
  | OK
  | BadRequest
  | NotFound
  | InternalServerError
deriving DecidableEq

/-- Embedding of `impl From<HttpStatusCode> for usize` from `response.rs`. -/
def statusUsize : HttpStatusCode → Nat
  | .OK => 200
  | .BadRequest => 400
  | .NotFound => 404
  | .InternalServerError => 500

/-- The derived `Debug` rendering of `HttpStatusCode` (the constructor
name), as used by `format!("{:?}", status_code)`. -/
def statusDebugStr : HttpStatusCode → List Char
  | .OK => "OK".toList
  | .BadRequest => "BadRequest".toList
  | .NotFound => "NotFound".toList
  | .InternalServerError => "InternalServerError".toList

/-- Embedding of `enum HttpHeaderName` from `response.rs`. -/
inductive HttpHeaderName
  | ContentType
deriving DecidableEq

/-- Embedding of `impl From<HttpHeaderName> for &str` from `response.rs`. -/
def headerNameStr : HttpHeaderName → List Char
  | .ContentType => "content-type".toList

/-- Embedding of `struct Response` from `response.rs`; the headers HashMap is
an association list with insert-overwrite semantics (it has at most one entry
since `HttpHeaderName` has a single variant, so iteration order is exact). -/
structure Response where
  status_code : HttpStatusCode
  body : List Char
  headers : List (HttpHeaderName × List Char)
deriving DecidableEq

/-- The derived `Default` for `Response`: status 200 OK, empty body,
no headers. -/
def Response.default : Response :=
  { status_code := .OK, body := [], headers := [] }

/-- Embedding of `Response::set_status_code`. -/
def Response.set_status_code (r : Response) (code : HttpStatusCode) : Response :=
  { r with status_code := code }

/-- Embedding of `Response::set_header` (`HashMap::insert`). -/
def Response.set_header (r : Response) (name : HttpHeaderName) (value : List Char) :
    Response :=
  { r with headers := hmInsert r.headers name value }

/-- Embedding of `Response::set_body`. -/
def Response.set_body (r : Response) (body : List Char) : Response :=
  { r with body := body }

/-- Embedding of `Response::set_json`: set the content-type header to
`application/json` and overwrite the body. -/
def Response.set_json (r : Response) (json : List Char) : Response :=
  { r.set_header .ContentType "application/json".toList with body := json }

/-- Embedding of `Response::set_html`: set the content-type header to
`text/html` and overwrite the body. -/
def Response.set_html (r : Response) (html : List Char) : Response :=
  { r.set_header .ContentType "text/html".toList with body := html }

/-- Embedding of `Response::headers_to_string`: the `name: value` lines
joined with a newline. -/
def Response.headers_to_string (r : Response) : List Char :=
  List.intercalate "\n".toList
    (r.headers.map (fun kv => headerNameStr kv.1 ++ ": ".toList ++ kv.2))

/-- Decimal digit characters of a natural number (the `Display` rendering of
a Rust `usize`), via a structural fuel argument. -/
def natDigitsAux : Nat → Nat → List Char
  | 0, _ => []
  | fuel + 1, n =>
    if n < 10 then [Nat.digitChar n]
    else natDigitsAux fuel (n / 10) ++ [Nat.digitChar (n % 10)]

/-- Decimal rendering of a natural number, e.g. `natDigits 200 = "200"`. -/
def natDigits (n : Nat) : List Char :=
  natDigitsAux (n + 1) n

/-- Rust `str::len` (UTF-8 byte length) of an embedded string. -/
def utf8Len (s : List Char) : Nat :=
  (s.map Char.utf8Size).sum

/-- Embedding of `response_into_http_response_string` from `response.rs`:
the `format!` template
`"HTTP/1.1 {} {:?}\n{}\ncontent-length: {}\n\n{}"` applied to the numeric
status, the Debug status name, the header lines, the body byte length and
the body. -/
def response_into_http_response_string (r : Response) : List Char :=
  "HTTP/1.1 ".toList ++ natDigits (statusUsize r.status_code) ++ " ".toList
    ++ statusDebugStr r.status_code ++ "\n".toList ++ r.headers_to_string
    ++ "\n".toList ++ "content-length: ".toList ++ natDigits (utf8Len r.body)
    ++ "\n\n".toList ++ r.body

/-- Embedding of `impl From<RequestParseError> for Response` from
`request.rs`: a default response with HTML body `RequestParseError` and
status `BadRequest`. -/
def responseFromParseError (_ : RequestParseError) : Response :=
  (Response.default.set_html "RequestParseError".toList).set_status_code .BadRequest

/-- Handler type: `Fn(&Request) -> Response` from `lib.rs`. -/
abbrev Handler : Type := Request → Response

/-- The route table type `Routes` from `lib.rs`. -/
abbrev Routes : Type := List (HttpMethod × List Char × Handler)

/-- Kinds of Rust panic relevant here: `todo!()`. -/
inductive PanicKind
  | todoPanic
deriving DecidableEq

/-- Embedding of `utils::set_request_params_according_to_match` from
`request.rs`: its body is `todo!()`, i.e. it unconditionally panics. -/
def set_request_params_according_to_match (_ : Request) (_ : List Char) :
    Except PanicKind Request :=
  .error .todoPanic

/-- Embedding of `Server::handle_request` from `lib.rs`, from the point where
the request content string is available.  The result is `.error` on a panic,
`.ok none` when no bytes are written to the stream, and `.ok (some s)` when
the serialized response `s` is written. -/
def handle_request (routes : Routes) (content : List Char) :
    Except PanicKind (Option (List Char)) :=
  match parse_request_from_http_request_body content with
  | .error err =>
    .ok (some (response_into_http_response_string (responseFromParseError err)))
  | .ok req =>
    match routes.find? (fun r =>
        decide (r.1 = req.method) && request_matches_route req.path r.2.1) with
    | none => .ok none
    | some r =>
      match set_request_params_according_to_match req r.2.1 with
      | .error p => .error p
      | .ok req' => .ok (some (response_into_http_response_string (r.2.2 req')))

instance {ε α : Type} [DecidableEq ε] [DecidableEq α] : DecidableEq (Except ε α) :=
  fun x y =>
    match x, y with
    | .ok a, .ok b =>
      if h : a = b then isTrue (by rw [h])
      else isFalse (fun hc => h (by injection hc))
    | .error a, .error b =>
      if h : a = b then isTrue (by rw [h])
      else isFalse (fun hc => h (by injection hc))
    | .ok _, .error _ => isFalse (fun hc => by injection hc)
    | .error _, .ok _ => isFalse (fun hc => by injection hc)

/-- Spec reading (claim C1): split a string into its whitespace-delimited
tokens (runs of whitespace separate tokens, empty tokens discarded). -/
def specTokens (s : List Char) : List (List Char) :=
  (splitBy (fun c => c.isWhitespace) s).filter (fun t => !t.isEmpty)

/-- Spec reading (claim C1): the claimed closed method set
{GET, POST, PUT, PATCH, DELETE}. -/
def specMethodsC1 : List (List Char) :=
  ["GET", "POST", "PUT", "PATCH", "DELETE"].map String.toList

/-- Spec reading (claim C1): the claimed success condition of the parser —
the content begins with two whitespace-delimited tokens whose first names a
method of the closed set, compared case-insensitively. -/
def claimC1Succeeds (c : List Char) : Bool :=
  decide (2 ≤ (specTokens c).length) &&
    specMethodsC1.contains (((specTokens c).headD []).map Char.toUpper)

/-- Spec reading (claim C5): a template segment wrapped in braces — it both
starts with `{` and ends with `}`. -/
def wrappedInBraces (s : List Char) : Bool :=
  (s.head? == some '{') && (s.getLast? == some '}')

/-- Spec reading (claim C5): the lock-step matching loop as the claim states
it, where only brace-wrapped template segments are placeholders. -/
def segsMatchWrapped : List (List Char) → List (List Char) → Bool
  | [], [] => true
  | _ :: _, [] => false
  | [], _ :: _ => false
  | re :: rs, ro :: ros =>
    if wrappedInBraces ro then segsMatchWrapped rs ros
    else if re = ro then segsMatchWrapped rs ros
    else false

/-- Spec reading (claim C3): the substring of a path before its first `?`. -/
def pathBeforeQuery (p : List Char) : List Char :=
  p.takeWhile (fun c => !(c == '?'))

/-- The status line of the serialized response, spelled out. -/
def statusLineOf (r : Response) : List Char :=
  "HTTP/1.1 ".toList ++ natDigits (statusUsize r.status_code) ++ " ".toList
    ++ statusDebugStr r.status_code

/-- The query map produced by a successful parse of the given content
(empty map if parsing fails); used to state concrete query examples. -/
def queriesOf (c : List Char) : List (List Char × Option (List Char)) :=
  match parse_request_from_http_request_body c with
  | .ok r => r.queries
  | .error _ => []

/-- A concrete handler (returns the default response), used in the concrete
dispatch scenarios. -/
def h0 : Handler := fun _ => Response.default

/-- The parsed form of the concrete content `GET /y HTTP`. -/
def reqW : Request :=
  { raw_content := "GET /y HTTP".toList, path := "/y".toList,
    method := .GET, queries := [] }

/-! ## Lemmas about `splitBy` -/

theorem consHead_headD (c : Char) (L : List (List Char)) :
    (consHead c L).headD [] = c :: L.headD [] := by
  cases L <;> rfl

theorem consHead_drop1 (c : Char) (L : List (List Char)) :
    (consHead c L).drop 1 = L.drop 1 := by
  cases L <;> rfl

theorem splitBy_ne_nil (p : Char → Bool) (s : List Char) : splitBy p s ≠ [] := by
  cases s with
  | nil => simp [splitBy]
  | cons c rest =>
    simp only [splitBy]
    split
    · simp
    · cases h : splitBy p rest <;> simp [consHead]

theorem headD_splitBy (p : Char → Bool) (s : List Char) :
    (splitBy p s).headD [] = s.takeWhile (fun c => !(p c)) := by
  induction s with
  | nil => rfl
  | cons c rest ih =>
    simp only [splitBy, List.takeWhile]
    cases hp : p c
    · simp only [Bool.false_eq_true, if_false, consHead_headD, ih, Bool.not_false]
    · simp only [if_true, List.headD_cons, Bool.not_true]

theorem head?_splitBy (p : Char → Bool) (s : List Char) :
    (splitBy p s).head? = some (s.takeWhile (fun c => !(p c))) := by
  have h := headD_splitBy p s
  cases hL : splitBy p s with
  | nil => exact absurd hL (splitBy_ne_nil p s)
  | cons x t => rw [hL] at h; simpa using h

theorem drop1_head?_splitBy (p : Char → Bool) (s : List Char) :
    ((splitBy p s).drop 1).head? =
      if s.any p then
        some (((s.dropWhile (fun c => !(p c))).drop 1).takeWhile (fun c => !(p c)))
      else none := by
  induction s with
  | nil => rfl
  | cons c rest ih =>
    simp only [splitBy, List.any_cons, List.dropWhile]
    cases hp : p c
    · simp only [Bool.false_eq_true, if_false, consHead_drop1, ih, Bool.false_or,
        Bool.not_false, if_true]
    · simp only [if_true, Bool.true_or, List.drop_succ_cons, List.drop_zero,
        Bool.not_true, if_false, List.drop_succ_cons, head?_splitBy]

theorem splitBy_all_not (p : Char → Bool) (s : List Char)
    (h : ∀ c ∈ s, p c = false) : splitBy p s = [s] := by
  induction s with
  | nil => rfl
  | cons c rest ih =>
    have hc : p c = false := h c (by simp)
    simp only [splitBy, hc, Bool.false_eq_true, if_false]
    rw [ih (fun x hx => h x (by simp [hx])), consHead]

theorem onLast_cons_cons (f : List Char → List Char) (x y : List Char)
    (t : List (List Char)) : onLast f (x :: y :: t) = x :: onLast f (y :: t) := rfl

theorem onLast_concat (f : List Char → List Char) (S : List (List Char))
    (l : List Char) : onLast f (S ++ [l]) = S ++ [f l] := by
  induction S with
  | nil => rfl
  | cons x S ih =>
    cases S with
    | nil => rfl
    | cons y S' => simpa [onLast_cons_cons] using ih

theorem consHead_onLast_append (c : Char) (suffix : List Char) (h : List Char)
    (t : List (List Char)) :
    consHead c (onLast (· ++ suffix) (h :: t)) =
      onLast (· ++ suffix) (consHead c (h :: t)) := by
  cases t with
  | nil => rfl
  | cons y t' => rfl

theorem splitBy_cons_pos (p : Char → Bool) (c : Char) (s : List Char)
    (hp : p c = true) : splitBy p (c :: s) = [] :: splitBy p s := by
  simp [splitBy, hp]

theorem splitBy_cons_neg (p : Char → Bool) (c : Char) (s : List Char)
    (hp : p c = false) : splitBy p (c :: s) = consHead c (splitBy p s) := by
  simp [splitBy, hp]

theorem splitBy_append_last (p : Char → Bool) (a suffix : List Char)
    (h : ∀ ch ∈ suffix, p ch = false) :
    splitBy p (a ++ suffix) = onLast (· ++ suffix) (splitBy p a) := by
  induction a with
  | nil =>
    rw [List.nil_append, splitBy_all_not p suffix h]
    rfl
  | cons c a ih =>
    cases hL : splitBy p a with
    | nil => exact absurd hL (splitBy_ne_nil p a)
    | cons x t =>
      cases hp : p c
      · rw [List.cons_append, splitBy_cons_neg p c (a ++ suffix) hp, ih, hL,
          splitBy_cons_neg p c a hp, hL]
        exact consHead_onLast_append c suffix x t
      · rw [List.cons_append, splitBy_cons_pos p c (a ++ suffix) hp, ih, hL,
          splitBy_cons_pos p c a hp, hL]
        rfl

theorem mem_of_mem_splitBy (p : Char → Bool) :
    ∀ (s : List Char) (seg : List Char), seg ∈ splitBy p s → ∀ c ∈ seg, c ∈ s := by
  intro s
  induction s with
  | nil =>
    intro seg hseg c hc
    simp only [splitBy, List.mem_singleton] at hseg
    subst hseg
    simp at hc
  | cons d rest ih =>
    intro seg hseg c hc
    simp only [splitBy] at hseg
    by_cases hp : p d = true
    · rw [if_pos hp] at hseg
      rcases List.mem_cons.mp hseg with h1 | h2
      · subst h1; simp at hc
      · exact List.mem_cons_of_mem d (ih seg h2 c hc)
    · rw [if_neg hp] at hseg
      cases hL : splitBy p rest with
      | nil => exact absurd hL (splitBy_ne_nil p rest)
      | cons x t =>
        rw [hL] at hseg
        simp only [consHead, List.mem_cons] at hseg
        rcases hseg with h1 | h2
        · subst h1
          rcases List.mem_cons.mp hc with h3 | h4
          · subst h3; simp
          · exact List.mem_cons_of_mem d (ih x (by rw [hL]; simp) c h4)
        · exact List.mem_cons_of_mem d (ih seg (by rw [hL]; simp [h2]) c hc)

theorem takeWhile_all (q : Char → Bool) (l : List Char)
    (h : ∀ c ∈ l, q c = true) : l.takeWhile q = l := by
  induction l with
  | nil => rfl
  | cons c rest ih =>
    simp only [List.takeWhile, h c (by simp)]
    rw [ih (fun x hx => h x (by simp [hx]))]

theorem takeWhile_append_stop (q : Char → Bool) (l : List Char) (x : Char)
    (r : List Char) (hl : ∀ c ∈ l, q c = true) (hx : q x = false) :
    (l ++ x :: r).takeWhile q = l := by
  induction l with
  | nil => simp [List.takeWhile, hx]
  | cons c rest ih =>
    rw [List.cons_append]
    simp only [List.takeWhile, hl c (by simp)]
    rw [ih (fun y hy => hl y (by simp [hy]))]

theorem segsMatch_refl (l : List (List Char)) : segsMatch l l = true := by
  induction l with
  | nil => rfl
  | cons x rest ih =>
    simp only [segsMatch]
    split
    · exact ih
    · simp [ih]

theorem segsMatch_length_ne (a b : List (List Char)) (h : a.length ≠ b.length) :
    segsMatch a b = false := by
  induction a generalizing b with
  | nil =>
    cases b with
    | nil => simp at h
    | cons y bs => rfl
  | cons x as ih =>
    cases b with
    | nil => rfl
    | cons y bs =>
      have h' : as.length ≠ bs.length := by
        intro he
        exact h (by simp [he])
      simp only [segsMatch]
      split
      · exact ih bs h'
      · split
        · exact ih bs h'
        · rfl

theorem segsMatch_iff (a b : List (List Char)) :
    segsMatch a b = true ↔
      (a.length = b.length ∧ ∀ i, i < b.length →
        (startsWithBrace (b.getD i []) = true ∨ a.getD i [] = b.getD i [])) := by
  induction a generalizing b with
  | nil =>
    cases b with
    | nil => simp [segsMatch]
    | cons y bs => simp [segsMatch]
  | cons x as ih =>
    cases b with
    | nil => simp [segsMatch]
    | cons y bs =>
      simp only [segsMatch]
      by_cases hy : startsWithBrace y = true
      · rw [if_pos hy, ih]
        constructor
        · rintro ⟨hlen, hall⟩
          refine ⟨by simp [hlen], ?_⟩
          intro i hi
          cases i with
          | zero => exact Or.inl (by simpa using hy)
          | succ j =>
            have := hall j (by simpa using hi)
            simpa using this
        · rintro ⟨hlen, hall⟩
          refine ⟨by simpa using hlen, ?_⟩
          intro j hj
          have := hall (j + 1) (by simpa using hj)
          simpa using this
      · rw [if_neg hy]
        by_cases hxy : x = y
        · rw [if_pos hxy, ih]
          constructor
          · rintro ⟨hlen, hall⟩
            refine ⟨by simp [hlen], ?_⟩
            intro i hi
            cases i with
            | zero => exact Or.inr (by simpa using hxy)
            | succ j =>
              have := hall j (by simpa using hi)
              simpa using this
          · rintro ⟨hlen, hall⟩
            refine ⟨by simpa using hlen, ?_⟩
            intro j hj
            have := hall (j + 1) (by simpa using hj)
            simpa using this
        · rw [if_neg hxy]
          constructor
          · intro h
            exact absurd h (by simp)
          · rintro ⟨hlen, hall⟩
            have h0 := hall 0 (by simp)
            simp only [List.getD_cons_zero] at h0
            rcases h0 with h0 | h0
            · exact absurd h0 hy
            · exact absurd h0 hxy

/-! ## Lemmas about the HashMap embedding -/

theorem hmLookup_hmInsert {α β : Type} [DecidableEq α] (m : List (α × β))
    (k : α) (v : β) (k' : α) :
    hmLookup (hmInsert m k v) k' = if k = k' then some v else hmLookup m k' := by
  induction m with
  | nil =>
    simp only [hmInsert, hmLookup]
  | cons kv rest ih =>
    obtain ⟨k0, v0⟩ := kv
    simp only [hmInsert]
    by_cases h0 : k0 = k
    · subst h0
      rw [if_pos rfl]
      simp only [hmLookup]
      by_cases hk : k0 = k'
      · subst hk
        rw [if_pos rfl, if_pos rfl]
      · rw [if_neg hk, if_neg hk, if_neg hk]
    · rw [if_neg h0]
      simp only [hmLookup]
      by_cases hk : k0 = k'
      · subst hk
        rw [if_pos rfl, if_pos rfl, if_neg (fun he => h0 he.symm)]
      · rw [if_neg hk, if_neg hk, ih]

theorem hmLookup_foldl_insert {α β : Type} [DecidableEq α] (l : List (α × β))
    (m : List (α × β)) (k : α) :
    hmLookup (l.foldl (fun acc kv => hmInsert acc kv.1 kv.2) m) k =
      match l.reverse.find? (fun kv => decide (kv.1 = k)) with
      | some kv => some kv.2
      | none => hmLookup m k := by
  induction l generalizing m with
  | nil => rfl
  | cons x xs ih =>
    rw [List.foldl_cons, ih]
    rw [List.reverse_cons, List.find?_append]
    cases hfind : xs.reverse.find? (fun kv => decide (kv.1 = k)) with
    | some kv => rfl
    | none =>
      by_cases hx : x.1 = k
      · have : List.find? (fun kv => decide (kv.1 = k)) [x] = some x :=
          List.find?_cons_of_pos _ (by simp [hx])
        rw [this]
        simp only [Option.or]
        rw [hmLookup_hmInsert, if_pos hx]
      · have : List.find? (fun kv => decide (kv.1 = k)) [x] = none := by
          rw [List.find?_cons_of_neg _ (by simp [hx])]
          rfl
        rw [this]
        simp only [Option.or]
        rw [hmLookup_hmInsert, if_neg hx]

theorem parseQueryFragment_eq (f : List Char) :
    parseQueryFragment f =
      (f.takeWhile (fun c => !(c == '=')),
       if f.any (fun c => c == '=') then
         some (((f.dropWhile (fun c => !(c == '='))).drop 1).takeWhile
           (fun c => !(c == '=')))
       else none) := by
  simp only [parseQueryFragment, splitOnChar, headD_splitBy, drop1_head?_splitBy]

theorem hmLookup_parseQueries (path : List Char) (k : List Char) :
    hmLookup (parseQueries path) k =
      (((splitBy (fun c => c == '?' || c == '&') path).drop 1).reverse.find?
        (fun f => decide (f.takeWhile (fun c => !(c == '=')) = k))).map
        (fun f =>
          if f.any (fun c => c == '=') then
            some (((f.dropWhile (fun c => !(c == '='))).drop 1).takeWhile
              (fun c => !(c == '=')))
          else none) := by
  unfold parseQueries
  rw [hmLookup_foldl_insert, ← List.map_reverse, List.find?_map]
  have hpred : ((fun kv : List Char × Option (List Char) => decide (kv.1 = k)) ∘
      parseQueryFragment) =
      (fun f => decide (f.takeWhile (fun c => !(c == '=')) = k)) := by
    funext f
    simp [Function.comp, parseQueryFragment_eq]
  rw [hpred]
  cases hf : ((splitBy (fun c => c == '?' || c == '&') path).drop 1).reverse.find?
      (fun f => decide (f.takeWhile (fun c => !(c == '=')) = k)) with
  | none => rfl
  | some f =>
    show some (parseQueryFragment f).2 = some _
    rw [parseQueryFragment_eq]

/-! ## Lemmas about the route matcher and query stripping -/

theorem segments_query_in_last (a : List Char) (d : Char) (b : List Char)
    (ha : ∀ c ∈ a ++ [d], c ≠ '?') (hd : d ≠ '/') (hb : ∀ c ∈ b, c ≠ '/') :
    reqSegments ((a ++ [d]) ++ '?' :: b) = routeSegments (a ++ [d]) ∧
      reqSegments (a ++ [d]) = routeSegments (a ++ [d]) := by
  have hsuffix_d : ∀ ch ∈ [d], (ch == '/') = false := by
    intro ch hch
    simp only [List.mem_singleton] at hch
    subst hch
    exact beq_eq_false_iff_ne.mpr hd
  have hA : splitBy (fun c => c == '/') (a ++ [d]) =
      onLast (· ++ [d]) (splitBy (fun c => c == '/') a) :=
    splitBy_append_last _ a [d] hsuffix_d
  rcases List.eq_nil_or_concat (splitBy (fun c => c == '/') a) with hnil | hcon
  · exact absurd hnil (splitBy_ne_nil _ a)
  obtain ⟨S₀, l', hS⟩ := hcon
  rw [List.concat_eq_append] at hS
  have hA2 : splitBy (fun c => c == '/') (a ++ [d]) = S₀ ++ [l' ++ [d]] := by
    rw [hA, hS, onLast_concat]
  have hlne : l' ++ [d] ≠ [] := by simp
  have hpieces : ∀ seg ∈ S₀ ++ [l' ++ [d]], ∀ c ∈ seg, c ≠ '?' := by
    intro seg hseg c hc
    exact ha c (mem_of_mem_splitBy _ (a ++ [d]) seg (by rw [hA2]; exact hseg) c hc)
  have hqsuffix : ∀ ch ∈ ('?' :: b), (ch == '/') = false := by
    intro ch hch
    rcases List.mem_cons.mp hch with h1 | h2
    · subst h1; decide
    · exact beq_eq_false_iff_ne.mpr (hb ch h2)
  have hQ : splitBy (fun c => c == '/') ((a ++ [d]) ++ '?' :: b) =
      S₀ ++ [(l' ++ [d]) ++ '?' :: b] := by
    rw [splitBy_append_last _ _ _ hqsuffix, hA2, onLast_concat]
  have hfilterS₀ : ∀ s ∈ List.filter (fun s => !s.isEmpty) S₀,
      s.takeWhile (fun c => c != '?') = s := by
    intro s hs
    apply takeWhile_all
    intro c hc
    have hmem : s ∈ S₀ ++ [l' ++ [d]] :=
      List.mem_append_left _ (List.mem_of_mem_filter hs)
    have := hpieces s hmem c hc
    simpa using this
  have hlchars : ∀ c ∈ l' ++ [d], (c != '?') = true := by
    intro c hc
    have := hpieces (l' ++ [d]) (List.mem_append_right _ (by simp)) c hc
    simpa using this
  constructor
  · unfold reqSegments routeSegments splitOnChar
    rw [hQ, hA2, List.filter_append, List.filter_append]
    have h1 : List.filter (fun s => !s.isEmpty) [(l' ++ [d]) ++ '?' :: b] =
        [(l' ++ [d]) ++ '?' :: b] := by
      simp
    have h2 : List.filter (fun s => !s.isEmpty) [l' ++ [d]] = [l' ++ [d]] := by
      simp
    rw [h1, h2, List.map_append]
    congr 1
    · calc List.map (fun s => s.takeWhile (fun c => c != '?'))
            (List.filter (fun s => !s.isEmpty) S₀)
          = List.map id (List.filter (fun s => !s.isEmpty) S₀) :=
            List.map_congr_left hfilterS₀
        _ = List.filter (fun s => !s.isEmpty) S₀ := List.map_id _
    · simp only [List.map_cons, List.map_nil]
      congr 1
      exact takeWhile_append_stop _ _ _ _ hlchars (by decide)
  · unfold reqSegments routeSegments splitOnChar
    rw [hA2, List.filter_append]
    have h2 : List.filter (fun s => !s.isEmpty) [l' ++ [d]] = [l' ++ [d]] := by
      simp
    rw [h2, List.map_append]
    congr 1
    · calc List.map (fun s => s.takeWhile (fun c => c != '?'))
            (List.filter (fun s => !s.isEmpty) S₀)
          = List.map id (List.filter (fun s => !s.isEmpty) S₀) :=
            List.map_congr_left hfilterS₀
        _ = List.filter (fun s => !s.isEmpty) S₀ := List.map_id _
    · simp only [List.map_cons, List.map_nil]
      congr 1
      exact takeWhile_all _ _ hlchars

theorem matches_ignores_final_segment_query (a : List Char) (d : Char)
    (b t : List Char) (ha : ∀ c ∈ a ++ [d], c ≠ '?') (hd : d ≠ '/')
    (hb : ∀ c ∈ b, c ≠ '/') (ht : ∀ c ∈ t, c ≠ '?') :
    request_matches_route ((a ++ [d]) ++ '?' :: b) t =
      request_matches_route (a ++ [d]) t := by
  obtain ⟨h1, h2⟩ := segments_query_in_last a d b ha hd hb
  have hne : (a ++ [d]) ++ '?' :: b ≠ t := by
    intro he
    have hq : ('?' : Char) ∈ t := by rw [← he]; simp
    exact ht '?' hq rfl
  unfold request_matches_route
  rw [if_neg hne]
  by_cases hAt : a ++ [d] = t
  · rw [if_pos hAt, h1, hAt]
    exact segsMatch_refl _
  · rw [if_neg hAt, h1, h2]

theorem pathBeforeQuery_append (A : List Char) (b : List Char)
    (hA : ∀ c ∈ A, c ≠ '?') : pathBeforeQuery (A ++ '?' :: b) = A := by
  unfold pathBeforeQuery
  apply takeWhile_append_stop
  · intro c hc
    have := hA c hc
    simpa using this
  · decide

/-! ## Lemmas about the parser -/

theorem tryFrom_isOk_iff (s : List Char) :
    exceptIsOk (HttpMethod.tryFrom s) = true ↔
      (s = "GET".toList ∨ s = "PUT".toList ∨ s = "PATCH".toList
        ∨ s = "DELETE".toList) := by
  unfold HttpMethod.tryFrom
  split_ifs with h1 h2 h3 h4
  · simp [exceptIsOk, h1]
  · simp [exceptIsOk, h2]
  · simp [exceptIsOk, h3]
  · simp [exceptIsOk, h4]
  · simp only [exceptIsOk, Bool.false_eq_true, false_iff]
    push_neg
    exact ⟨h1, h2, h3, h4⟩

theorem parse_isOk_iff (c : List Char) :
    exceptIsOk (parse_request_from_http_request_body c) = true ↔
      (exceptIsOk (HttpMethod.tryFrom (c.takeWhile (fun ch => !(ch == ' ')))) = true
        ∧ c.any (fun ch => ch == ' ') = true) := by
  unfold parse_request_from_http_request_body splitOnChar
  rw [headD_splitBy, drop1_head?_splitBy]
  cases htf : HttpMethod.tryFrom (c.takeWhile (fun ch => !(ch == ' '))) with
  | error e => simp [exceptIsOk]
  | ok m =>
    cases hany : c.any (fun ch => ch == ' ') with
    | false => simp [exceptIsOk]
    | true => simp [exceptIsOk]

theorem parse_ok_fields (c : List Char) (req : Request)
    (h : parse_request_from_http_request_body c = .ok req) :
    HttpMethod.tryFrom (c.takeWhile (fun ch => !(ch == ' '))) = .ok req.method
    ∧ req.path =
        ((c.dropWhile (fun ch => !(ch == ' '))).drop 1).takeWhile (fun ch => !(ch == ' '))
    ∧ req.raw_content = c
    ∧ req.queries = parseQueries req.path := by
  unfold parse_request_from_http_request_body splitOnChar at h
  rw [headD_splitBy, drop1_head?_splitBy] at h
  cases htf : HttpMethod.tryFrom (c.takeWhile (fun ch => !(ch == ' '))) with
  | error e =>
    rw [htf] at h
    simp at h
  | ok m =>
    rw [htf] at h
    cases hany : c.any (fun ch => ch == ' ') with
    | false =>
      rw [hany] at h
      simp at h
    | true =>
      rw [hany] at h
      simp only [if_true] at h
      injection h with h'
      subst h'
      exact ⟨rfl, rfl, rfl, rfl⟩

/-! ## Lemmas about the serializer -/

theorem natDigitsAux_mem_digitChar (fuel : Nat) :
    ∀ (n : Nat), ∀ c ∈ natDigitsAux fuel n, ∃ m, m < 16 ∧ c = Nat.digitChar m := by
  induction fuel with
  | zero =>
    intro n c hc
    simp [natDigitsAux] at hc
  | succ fuel ih =>
    intro n c hc
    simp only [natDigitsAux] at hc
    by_cases h : n < 10
    · rw [if_pos h] at hc
      simp only [List.mem_singleton] at hc
      exact ⟨n, by omega, hc⟩
    · rw [if_neg h] at hc
      rcases List.mem_append.mp hc with h1 | h2
      · exact ih (n / 10) c h1
      · simp only [List.mem_singleton] at h2
        exact ⟨n % 10, by omega, h2⟩

theorem natDigits_no_cr (n : Nat) : ∀ c ∈ natDigits n, c ≠ '\r' := by
  intro c hc
  obtain ⟨m, hm, rfl⟩ := natDigitsAux_mem_digitChar (n + 1) n c hc
  have hall : ∀ m', m' < 16 → Nat.digitChar m' ≠ '\r' := by decide
  exact hall m hm

theorem mem_intersperse {β : Type} [DecidableEq β] (sep : β) :
    ∀ (L : List β) (x : β), x ∈ List.intersperse sep L → x = sep ∨ x ∈ L := by
  intro L
  induction L with
  | nil =>
    intro x hx
    simp [List.intersperse] at hx
  | cons a t ih =>
    intro x hx
    cases t with
    | nil =>
      simp only [List.intersperse, List.mem_singleton] at hx
      exact Or.inr (by simp [hx])
    | cons b t' =>
      simp only [List.intersperse, List.mem_cons] at hx
      rcases hx with h1 | h2 | h3
      · exact Or.inr (by simp [h1])
      · exact Or.inl h2
      · rcases ih x (by simpa [List.intersperse] using h3) with h4 | h5
        · exact Or.inl h4
        · exact Or.inr (List.mem_cons_of_mem a h5)

theorem mem_headers_to_string (r : Response) (c : Char)
    (hc : c ∈ r.headers_to_string) :
    c = '\n' ∨ ∃ kv ∈ r.headers, c ∈ headerNameStr kv.1 ++ ": ".toList ++ kv.2 := by
  unfold Response.headers_to_string List.intercalate at hc
  obtain ⟨l, hl, hcl⟩ := List.mem_flatten.mp hc
  rcases mem_intersperse _ _ l hl with h1 | h2
  · subst h1
    left
    simpa using hcl
  · obtain ⟨kv, hkv, rfl⟩ := List.mem_map.mp h2
    right
    exact ⟨kv, hkv, hcl⟩

theorem serialize_decompose (r : Response) :
    response_into_http_response_string r =
      statusLineOf r ++ "\n".toList ++ r.headers_to_string ++ "\n".toList
        ++ "content-length: ".toList ++ natDigits (utf8Len r.body)
        ++ "\n".toList ++ "\n".toList ++ r.body := by
  unfold response_into_http_response_string statusLineOf
  have h2 : "\n\n".toList = "\n".toList ++ "\n".toList := rfl
  rw [h2]
  simp [List.append_assoc]

theorem headers_to_string_nil (r : Response) (h : r.headers = []) :
    r.headers_to_string = [] := by
  unfold Response.headers_to_string
  rw [h]
  rfl

theorem serialize_no_cr (r : Response) (hbody : '\r' ∉ r.body)
    (hheaders : ∀ kv ∈ r.headers, '\r' ∉ kv.2) :
    '\r' ∉ response_into_http_response_string r := by
  unfold response_into_http_response_string
  intro hmem
  simp only [List.mem_append] at hmem
  rcases hmem with (((((((((h | h) | h) | h) | h) | h) | h) | h) | h) | h) | h
  · exact absurd h (by decide)
  · exact natDigits_no_cr _ '\r' h rfl
  · exact absurd h (by decide)
  · have : '\r' ∉ statusDebugStr r.status_code := by
      cases r.status_code <;> decide
    exact this h
  · exact absurd h (by decide)
  · rcases mem_headers_to_string r '\r' h with h1 | ⟨kv, hkv, h2⟩
    · exact absurd h1 (by decide)
    · simp only [List.mem_append] at h2
      rcases h2 with (h3 | h3) | h3
      · have : '\r' ∉ headerNameStr kv.1 := by
          cases kv.1
          decide
        exact this h3
      · exact absurd h3 (by decide)
      · exact hheaders kv hkv h3
  · exact absurd h (by decide)
  · exact absurd h (by decide)
  · exact natDigits_no_cr _ '\r' h rfl
  · exact absurd h (by decide)
  · exact hbody h

/-! ## Claim theorems -/

/-- Claim C1, counterexample: the claim's success condition (two
whitespace-delimited tokens, method in {GET, POST, PUT, PATCH, DELETE}
case-insensitively) holds for `POST /x`, yet the code rejects it (the method
match is case-sensitive and has no POST); conversely `GET ` (one token, a
trailing space) fails the claim's condition yet the code accepts it with an
empty path token. -/
theorem C1_counterexample :
    (claimC1Succeeds "POST /x".toList = true
      ∧ parse_request_from_http_request_body "POST /x".toList = .error ⟨⟩)
    ∧ (claimC1Succeeds "GET ".toList = false
      ∧ exceptIsOk (parse_request_from_http_request_body "GET ".toList) = true) := by
  exact ⟨⟨by decide, rfl⟩, ⟨by decide, rfl⟩⟩

/-- Claim C1 (amended): parsing succeeds iff the prefix of the content before
the first space is exactly `GET`, `PUT`, `PATCH` or `DELETE` (case-sensitive,
no POST) and the content contains at least one space; on success the returned
method is that token's method, the path is the (possibly empty) token between
the first and second spaces, and the raw content is preserved verbatim. -/
theorem C1_parse_characterization : ∀ c : List Char,
    (exceptIsOk (parse_request_from_http_request_body c) = true ↔
      ((c.takeWhile (fun ch => !(ch == ' ')) = "GET".toList
        ∨ c.takeWhile (fun ch => !(ch == ' ')) = "PUT".toList
        ∨ c.takeWhile (fun ch => !(ch == ' ')) = "PATCH".toList
        ∨ c.takeWhile (fun ch => !(ch == ' ')) = "DELETE".toList)
        ∧ c.any (fun ch => ch == ' ') = true))
    ∧ (∀ req, parse_request_from_http_request_body c = .ok req →
        HttpMethod.tryFrom (c.takeWhile (fun ch => !(ch == ' '))) = .ok req.method
        ∧ req.path = ((c.dropWhile (fun ch => !(ch == ' '))).drop 1).takeWhile
            (fun ch => !(ch == ' '))
        ∧ req.raw_content = c) := by
  intro c
  constructor
  · rw [parse_isOk_iff, tryFrom_isOk_iff]
  · intro req h
    obtain ⟨h1, h2, h3, _⟩ := parse_ok_fields c req h
    exact ⟨h1, h2, h3⟩

/-- The parsed form of the concrete content `GET /x y`. -/
def reqC1W : Request :=
  { raw_content := "GET /x y".toList, path := "/x".toList,
    method := .GET, queries := [] }

/-- Witness for C1's amended theorem at the concrete content `GET /x y`. -/
theorem C1_witness :
    HttpMethod.tryFrom ("GET /x y".toList.takeWhile (fun ch => !(ch == ' ')))
        = .ok reqC1W.method
    ∧ reqC1W.path = (("GET /x y".toList.dropWhile (fun ch => !(ch == ' '))).drop
        1).takeWhile (fun ch => !(ch == ' '))
    ∧ reqC1W.raw_content = "GET /x y".toList :=
  (C1_parse_characterization "GET /x y".toList).2 reqC1W rfl

/-- Claim C2, counterexample: for `/p?x=1&x=2` the code's HashMap collect
makes the LAST duplicate win (`x ↦ Some "2"`, not `Some "1"` as claimed), and
for `/p?&a=1` the key-less fragment is kept under the empty key rather than
skipped. -/
theorem C2_counterexample :
    hmLookup (queriesOf "GET /p?x=1&x=2 HTTP".toList) "x".toList
        = some (some "2".toList)
    ∧ hmLookup (queriesOf "GET /p?x=1&x=2 HTTP".toList) "x".toList
        ≠ some (some "1".toList)
    ∧ hmLookup (queriesOf "GET /p?&a=1 HTTP".toList) [] = some none := by
  exact ⟨by decide, by decide, by decide⟩

/-- Claim C2 (amended): the queries mapping is built from the path's
fragments after the first `?` or `&`; a fragment's key is the part before its
first `=`; every fragment contributes — a key-less fragment is stored under
the empty key, not skipped; the value is Some(v) when an `=` is present (v
the part between the first and second `=`) and None otherwise; when a key
occurs more than once the LAST occurrence wins.  `/p?a&b=1` yields
{a ↦ None, b ↦ Some "1"} and `/p?x=1&x=2` yields {x ↦ Some "2"}. -/
theorem C2_queries_characterization :
    (∀ path k, hmLookup (parseQueries path) k =
      (((splitBy (fun c => c == '?' || c == '&') path).drop 1).reverse.find?
        (fun f => decide (f.takeWhile (fun c => !(c == '=')) = k))).map
        (fun f =>
          if f.any (fun c => c == '=') then
            some (((f.dropWhile (fun c => !(c == '='))).drop 1).takeWhile
              (fun c => !(c == '=')))
          else none))
    ∧ hmLookup (queriesOf "GET /p?a&b=1 HTTP".toList) "a".toList = some none
    ∧ hmLookup (queriesOf "GET /p?a&b=1 HTTP".toList) "b".toList
        = some (some "1".toList)
    ∧ hmLookup (queriesOf "GET /p?x=1&x=2 HTTP".toList) "x".toList
        = some (some "2".toList) :=
  ⟨hmLookup_parseQueries, by decide, by decide, by decide⟩

/-- Claim C3, counterexample: matching is not performed on the query-stripped
path.  With request path `/a?b/c` (whole-path stripping would give `/a`), the
code strips per segment and keeps a second segment `c`, so template `/a` does
NOT match, while it does match the stripped path. -/
theorem C3_counterexample :
    pathBeforeQuery "/a?b/c".toList = "/a".toList
    ∧ request_matches_route "/a?b/c".toList "/a".toList = false
    ∧ request_matches_route (pathBeforeQuery "/a?b/c".toList) "/a".toList = true := by
  exact ⟨by decide, by decide, by decide⟩

/-- Claim C3 (amended): the code strips queries per segment (each request
segment is truncated at its own first `?`).  Whenever the first `?` is
preceded by a non-slash character, no `/` occurs after it (i.e. the query
string sits in the final path segment), and the template contains no `?`,
matching agrees with matching the substring of the path before the first
`?`; in particular template `/test/path` matches `/test/path?x=1` and does
not match request path `/other/path`. -/
theorem C3_match_ignores_query :
    (∀ (a : List Char) (d : Char) (b t : List Char),
      (∀ c ∈ a ++ [d], c ≠ '?') → d ≠ '/' → (∀ c ∈ b, c ≠ '/') →
      (∀ c ∈ t, c ≠ '?') →
      request_matches_route ((a ++ [d]) ++ '?' :: b) t =
        request_matches_route (a ++ [d]) t
      ∧ pathBeforeQuery ((a ++ [d]) ++ '?' :: b) = a ++ [d])
    ∧ request_matches_route "/test/path?x=1".toList "/test/path".toList = true
    ∧ request_matches_route "/test/path?x=1".toList "/other/path".toList = false := by
  refine ⟨?_, by decide, by decide⟩
  intro a d b t ha hd hb ht
  exact ⟨matches_ignores_final_segment_query a d b t ha hd hb ht,
    pathBeforeQuery_append (a ++ [d]) b ha⟩

/-- Witness for C3's amended theorem: the path `/test/path?x=1` decomposed
around its `?`, against templates with no `?`. -/
theorem C3_witness :
    request_matches_route (("/test/pat".toList ++ ['h']) ++ '?' :: "x=1".toList)
        "/test/path".toList =
      request_matches_route ("/test/pat".toList ++ ['h']) "/test/path".toList
    ∧ pathBeforeQuery (("/test/pat".toList ++ ['h']) ++ '?' :: "x=1".toList) =
      "/test/pat".toList ++ ['h'] :=
  C3_match_ignores_query.1 "/test/pat".toList 'h' "x=1".toList
    "/test/path".toList (by decide) (by decide) (by decide) (by decide)

/-- Claim C4: matching requires equal segment counts (after discarding empty
segments): whenever the two segment sequences have different lengths the
match fails; `/greet/{name}` matches `/greet/john` and `/greet/john/` but
neither `/greet` nor `/greet/john/extra`. -/
theorem C4_segment_counts :
    (∀ p t, (reqSegments p).length ≠ (routeSegments t).length →
      request_matches_route p t = false)
    ∧ request_matches_route "/greet/john".toList "/greet/{name}".toList = true
    ∧ request_matches_route "/greet/john/".toList "/greet/{name}".toList = true
    ∧ request_matches_route "/greet".toList "/greet/{name}".toList = false
    ∧ request_matches_route "/greet/john/extra".toList "/greet/{name}".toList
        = false := by
  refine ⟨?_, by decide, by decide, by decide, by decide⟩
  intro p t h
  unfold request_matches_route
  by_cases hpt : p = t
  · exfalso
    apply h
    subst hpt
    simp [reqSegments, routeSegments]
  · rw [if_neg hpt]
    exact segsMatch_length_ne _ _ h

/-- Witness for C4 at `/greet` vs `/greet/{name}` (1 segment vs 2). -/
theorem C4_witness :
    request_matches_route "/greet".toList "/greet/{name}".toList = false :=
  C4_segment_counts.1 "/greet".toList "/greet/{name}".toList (by decide)

/-- Claim C5, counterexample: the code treats any template segment that
merely STARTS with `{` as a placeholder.  The segment `{name` (no closing
brace) is not wrapped in braces, yet it consumes the request segment `john`
instead of requiring byte-equality as the claim states. -/
theorem C5_counterexample :
    wrappedInBraces "\x7bname".toList = false
    ∧ segsMatch ["john".toList] ["\x7bname".toList] = true
    ∧ segsMatchWrapped ["john".toList] ["\x7bname".toList] = false
    ∧ request_matches_route "/greet/john".toList "/greet/\x7bname".toList
        = true := by
  exact ⟨by decide, by decide, by decide, by decide⟩

/-- Claim C5 (amended): away from the byte-identical fast path, exactly the
template segments that START with `{` are placeholders: matching succeeds iff
the segment sequences have equal length and at each position the template
segment starts with `{` (consuming any request segment) or the segments are
byte-equal. -/
theorem C5_placeholder_characterization :
    ∀ p t, p ≠ t →
      (request_matches_route p t = true ↔
        ((reqSegments p).length = (routeSegments t).length
          ∧ ∀ i, i < (routeSegments t).length →
            (startsWithBrace ((routeSegments t).getD i []) = true
              ∨ (reqSegments p).getD i [] = (routeSegments t).getD i []))) := by
  intro p t hpt
  unfold request_matches_route
  rw [if_neg hpt]
  exact segsMatch_iff _ _

/-- Witness for C5's amended theorem at `/greet/john` vs `/greet/{name}`. -/
theorem C5_witness :
    request_matches_route "/greet/john".toList "/greet/{name}".toList = true :=
  (C5_placeholder_characterization "/greet/john".toList
    "/greet/{name}".toList (by decide)).mpr (by decide)

/-- Claim C6 (code bug): dispatching a parsed request that matches the route
`GET /greet/{name}` runs into `set_request_params_according_to_match`, whose
body is `todo!()`; the dispatcher panics before binding any parameter or
invoking the handler (the `Request` struct of this snapshot has no params
field and `Request::params` is itself `todo!()`). -/
theorem C6_dispatch_todo :
    handle_request [(HttpMethod.GET, "/greet/{name}".toList, h0)]
      "GET /greet/john HTTP/1.1".toList = .error .todoPanic := by
  rfl

/-- Claim C7: serialization is a pure function rendering the fixed `\n`
template; the content-length line always carries the body's UTF-8 byte
length; no `\r` ever appears when body and header values are `\r`-free; and
the default response after `set_html("test")` serializes to the exact
claimed string. -/
theorem C7_serialization :
    (response_into_http_response_string (Response.default.set_html "test".toList) =
      "HTTP/1.1 200 OK\ncontent-type: text/html\ncontent-length: 4\n\ntest".toList)
    ∧ (∀ r : Response, response_into_http_response_string r =
        statusLineOf r ++ "\n".toList ++ r.headers_to_string ++ "\n".toList
          ++ "content-length: ".toList ++ natDigits (utf8Len r.body)
          ++ "\n".toList ++ "\n".toList ++ r.body)
    ∧ (∀ r : Response, '\r' ∉ r.body → (∀ kv ∈ r.headers, '\r' ∉ kv.2) →
        '\r' ∉ response_into_http_response_string r) :=
  ⟨by decide, serialize_decompose, serialize_no_cr⟩

/-- Witness for C7's `\r`-freedom conjunct at the default response. -/
theorem C7_witness :
    '\r' ∉ response_into_http_response_string Response.default :=
  C7_serialization.2.2 Response.default (by decide) (by decide)

/-- Claim C8: whenever parsing fails, the dispatcher writes the serialized
BadRequest response — status 400, content-type `text/html`, body
`RequestParseError` — independently of the registered routes (no route
lookup), never no response. -/
theorem C8_parse_error_response :
    ∀ (routes : Routes) (content : List Char) (err : RequestParseError),
      parse_request_from_http_request_body content = .error err →
      handle_request routes content = .ok (some
        ("HTTP/1.1 400 BadRequest\ncontent-type: text/html\ncontent-length: 17\n\nRequestParseError".toList)) := by
  intro routes content err h
  unfold handle_request
  rw [h]
  obtain ⟨⟩ := err
  rfl

/-- Witness for C8 at empty content (which fails to parse) and no routes. -/
theorem C8_witness :
    handle_request [] "".toList = .ok (some
      ("HTTP/1.1 400 BadRequest\ncontent-type: text/html\ncontent-length: 17\n\nRequestParseError".toList)) :=
  C8_parse_error_response [] "".toList ⟨⟩ rfl

/-- Claim C9: when the request parses but no registered route has both an
equal method and a matching template, the dispatcher writes nothing at all
(no NotFound response) and completes normally. -/
theorem C9_no_match_no_response :
    ∀ (routes : Routes) (content : List Char) (req : Request),
      parse_request_from_http_request_body content = .ok req →
      (∀ r ∈ routes, ¬(r.1 = req.method
        ∧ request_matches_route req.path r.2.1 = true)) →
      handle_request routes content = .ok none := by
  intro routes content req h hnone
  have hfind : routes.find? (fun r =>
      decide (r.1 = req.method) && request_matches_route req.path r.2.1) = none := by
    rw [List.find?_eq_none]
    intro x hx hpx
    apply hnone x hx
    constructor
    · exact of_decide_eq_true ((Bool.and_eq_true _ _).mp hpx).1
    · exact ((Bool.and_eq_true _ _).mp hpx).2
  simp only [handle_request, h, hfind]

/-- Witness for C9: `GET /y` against the single route `GET /x`. -/
theorem C9_witness :
    handle_request [(HttpMethod.GET, "/x".toList, h0)] "GET /y HTTP".toList
      = .ok none :=
  C9_no_match_no_response _ _ reqW rfl (by
    intro r hr
    simp only [List.mem_singleton] at hr
    subst hr
    intro hcon
    exact absurd hcon.2 (by decide))

/-- Claim C10: with an empty headers map the serialized string has an empty
header section — two consecutive newlines between the status line and the
content-length line; the default response serializes to exactly
`HTTP/1.1 200 OK\n\ncontent-length: 0\n\n`; and `set_body` and
`set_status_code` leave the headers map untouched. -/
theorem C10_empty_headers :
    (∀ r : Response, r.headers = [] →
      response_into_http_response_string r =
        statusLineOf r ++ "\n".toList ++ "\n".toList ++ "content-length: ".toList
          ++ natDigits (utf8Len r.body) ++ "\n".toList ++ "\n".toList ++ r.body)
    ∧ response_into_http_response_string Response.default =
        "HTTP/1.1 200 OK\n\ncontent-length: 0\n\n".toList
    ∧ (∀ r s, (Response.set_body r s).headers = r.headers)
    ∧ (∀ r c, (Response.set_status_code r c).headers = r.headers) := by
  refine ⟨?_, by decide, fun r s => rfl, fun r c => rfl⟩
  intro r h
  rw [serialize_decompose, headers_to_string_nil r h]
  simp [List.append_assoc]

/-- Witness for C10's empty-header conjunct at the default response. -/
theorem C10_witness :
    response_into_http_response_string Response.default =
      statusLineOf Response.default ++ "\n".toList ++ "\n".toList
        ++ "content-length: ".toList ++ natDigits (utf8Len Response.default.body)
        ++ "\n".toList ++ "\n".toList ++ Response.default.body :=
  C10_empty_headers.1 Response.default rfl
